import Mathlib

/-!
Verification of the region alignment and packing pipeline of
`src/model/rec_dataset.py` (`iou`, `assert_eq`,
`ReferExpressionDataset.tokenize`, `ReferExpressionDataset.__getitem__`).

The numeric code is embedded over `ℚ` (exact rational arithmetic in place of
the float arrays of the source).  Feature rows (2048 floats) and spatial rows
(5 floats) are never inspected by the code, only copied, so they are kept as
abstract types `F` and `S` with designated zero rows standing for the rows of
`np.zeros`.  NumPy / Paddle slice assignment is modelled shape-checked: an
assignment whose value rows neither match the slice length nor broadcast from
a single row is the error case (`none`), as in the libraries.
-/

namespace RecDataset

/-- One row of the `(N, 4)` box arrays: corners `(x1, y1, x2, y2)`. -/
structure Box where
  x1 : ℚ
  y1 : ℚ
  x2 : ℚ
  y2 : ℚ
  deriving DecidableEq, Repr

/-- A box whose corners are ordered, the well-formedness assumption the
source documents for its callers. -/
def Box.wff (b : Box) : Prop := b.x1 ≤ b.x2 ∧ b.y1 ≤ b.y2

instance (b : Box) : Decidable b.wff := by
  unfold Box.wff; infer_instance

/-- Inclusive-pixel area `(x2 - x1 + 1) * (y2 - y1 + 1)` used by `iou` for
both `gt_boxes_area` and `anchors_area`. -/
def Box.area (b : Box) : ℚ := (b.x2 - b.x1 + 1) * (b.y2 - b.y1 + 1)

/-- The elementwise clipping `iw[iw < 0] = 0` of `iou`. -/
def clip0 (q : ℚ) : ℚ := if q < 0 then 0 else q

/-- `iw`: `min(boxes[:,:,2], query_boxes[:,:,2]) - max(boxes[:,:,0], query_boxes[:,:,0]) + 1`. -/
def interW (a b : Box) : ℚ := min a.x2 b.x2 - max a.x1 b.x1 + 1

/-- `ih`: `min(boxes[:,:,3], query_boxes[:,:,3]) - max(boxes[:,:,1], query_boxes[:,:,1]) + 1`. -/
def interH (a b : Box) : ℚ := min a.y2 b.y2 - max a.y1 b.y1 + 1

/-- One entry of `iw * ih` after both clippings. -/
def inter (a b : Box) : ℚ := clip0 (interW a b) * clip0 (interH a b)

/-- One entry of `ua = anchors_area + gt_boxes_area - (iw * ih)`. -/
def unionArea (a b : Box) : ℚ := a.area + b.area - inter a b

/-- One entry of `overlaps = iw * ih / ua`. -/
def iouPair (a b : Box) : ℚ := inter a b / unionArea a b

/-- `iou(anchors, gt_boxes)`: the `(N, K)` overlap matrix, row-major. -/
def iou (anchors gt_boxes : List Box) : List (List ℚ) :=
  anchors.map fun a => gt_boxes.map fun g => iouPair a g

/-- `assert_eq(real, expected)`: an `AssertionError` is the error case. -/
def assert_eq [DecidableEq α] (real expected : α) : Except String Unit :=
  if real = expected then Except.ok () else Except.error "AssertionError"

/-- The tuple `(features, num_boxes, boxes, boxes_ori)` returned by an
`ImageFeaturesH5Reader` lookup.  `F` is the type of one 2048-float feature
row, `S` the type of one 5-float spatial row; the code only copies them. -/
structure Store (F S : Type) where
  features : List F
  num_boxes : ℕ
  boxes : List S
  boxes_ori : List Box
  deriving DecidableEq, Repr

/-- The documented contract of the region-feature store: the reported valid
count does not exceed the number of materialized rows. -/
def Store.wff (st : Store F S) : Prop :=
  st.num_boxes ≤ st.features.length ∧ st.num_boxes ≤ st.boxes.length ∧
    st.num_boxes ≤ st.boxes_ori.length

/-- Number of rows of the Python slice `x[:m]` of a length-`len` array
(`m` may be negative, counting from the end). -/
def pySliceLen (m : ℤ) (len : ℕ) : ℕ :=
  if 0 ≤ m then min m.toNat len else len - min (-m).toNat len

/-- Python `x[:m]` on row lists. -/
def pyTake (m : ℤ) (l : List α) : List α := l.take (pySliceLen m l.length)

/-- NumPy / Paddle slice assignment `dst[:m] = val` on row lists.  It
succeeds when the value's row count equals the slice's row count, or when a
single value row broadcasts over the slice; any other shape raises, which is
the `none` case. -/
def pySetSlice (dst : List α) (m : ℤ) (val : List α) : Option (List α) :=
  if val.length = pySliceLen m dst.length then
    some (val ++ dst.drop (pySliceLen m dst.length))
  else if hv : val.length = 1 then
    some (List.replicate (pySliceLen m dst.length)
        (val.head (List.length_pos.mp (by omega))) ++
      dst.drop (pySliceLen m dst.length))
  else none

/-- `ref_box = [ref_box[0], ref_box[1], ref_box[0] + ref_box[2], ref_box[1] + ref_box[3]]`:
the `(x, y, w, h)` annotation box as corners. -/
def refToCorners (rx ry rw rh : ℚ) : Box := ⟨rx, ry, rx + rw, ry + rh⟩

/-- The row merge applied identically to `boxes_ori`, `boxes` and
`features`: detector rows are truncated to their valid count; in training
mode the ground-truth rows `[1:gt_num_boxes]` (index 0 dropped) are appended. -/
def mergeRows (train : Bool) (det : List α) (numBoxes : ℕ)
    (gtRows : List α) (gtNumBoxes : ℕ) : List α :=
  if train then det.take numBoxes ++ (gtRows.take gtNumBoxes).drop 1
  else det.take numBoxes

/-- `mix_boxes_ori`. -/
def mixBoxesOri (train : Bool) (st gt : Store F S) : List Box :=
  mergeRows train st.boxes_ori st.num_boxes gt.boxes_ori gt.num_boxes

/-- `mix_boxes` (the 5-dim spatial representation). -/
def mixBoxes (train : Bool) (st gt : Store F S) : List S :=
  mergeRows train st.boxes st.num_boxes gt.boxes gt.num_boxes

/-- `mix_features`. -/
def mixFeatures (train : Bool) (st gt : Store F S) : List F :=
  mergeRows train st.features st.num_boxes gt.features gt.num_boxes

/-- `mix_num_boxes`: `min(int(num_boxes + int(gt_num_boxes) - 1), max_region_num)`
in training mode, `min(int(num_boxes), max_region_num)` otherwise.  Python
`int` arithmetic, hence `ℤ`. -/
def mixNumBoxes (train : Bool) (numBoxes gtNumBoxes maxRegionNum : ℕ) : ℤ :=
  if train then min ((numBoxes : ℤ) + (gtNumBoxes : ℤ) - 1) (maxRegionNum : ℤ)
  else min (numBoxes : ℤ) (maxRegionNum : ℤ)

/-- `mix_target = iou(mix_boxes_ori[:, :4], np.array([ref_box]))` flattened to
its single column, with the training-mode-only `mix_target[mix_target < 0.5] = 0`. -/
def mixTarget (train : Bool) (mOri : List Box) (refBox : Box) : List ℚ :=
  if train then (iou mOri [refBox]).flatten.map fun q => if q < 1/2 then 0 else q
  else (iou mOri [refBox]).flatten

/-- The tuple returned by `ReferExpressionDataset.__getitem__`, together with
the internal `mix_num_boxes` count it was packed with. -/
structure Item (F S : Type) where
  features : List F
  spatials : List S
  image_mask : List ℚ
  caption : List ℤ
  target : List ℚ
  input_mask : List ℤ
  segment_ids : List ℤ
  co_attention_mask : List (List ℚ)
  image_id : ℕ
  mix_num_boxes : ℤ
  deriving DecidableEq, Repr

/-- `ReferExpressionDataset.__getitem__` for one entry.  `zF` / `zS` are the
all-zero feature and spatial rows of `np.zeros`; the caption arrays of the
entry are passed through unchanged.  The three shape-checked slice
assignments (`mix_boxes_pad[:mix_num_boxes] = mix_boxes[:mix_num_boxes]`,
`mix_features_pad[:mix_num_boxes] = mix_features[:mix_num_boxes]`,
`target[:mix_num_boxes] = mix_target` — note the untruncated right-hand side
of the last one) are the three binds. -/
def getitem (train : Bool) (maxRegionNum maxSeqLength : ℕ) (zF : F) (zS : S)
    (st gt : Store F S) (rx ry rw rh : ℚ)
    (caption input_mask segment_ids : List ℤ) (imageId : ℕ) :
    Option (Item F S) :=
  let m := mixNumBoxes train st.num_boxes gt.num_boxes maxRegionNum
  (pySetSlice (List.replicate maxRegionNum zS) m
      (pyTake m (mixBoxes train st gt))).bind fun spatials =>
  (pySetSlice (List.replicate maxRegionNum zF) m
      (pyTake m (mixFeatures train st gt))).bind fun feats =>
  (pySetSlice (List.replicate maxRegionNum (0 : ℚ)) m
      (mixTarget train (mixBoxesOri train st gt) (refToCorners rx ry rw rh))).map
    fun target =>
      { features := feats
        spatials := spatials
        image_mask := List.replicate m.toNat (1 : ℚ) ++
          List.replicate (maxRegionNum - m.toNat) (0 : ℚ)
        caption := caption
        target := target
        input_mask := input_mask
        segment_ids := segment_ids
        co_attention_mask :=
          List.replicate maxRegionNum (List.replicate maxSeqLength (0 : ℚ))
        image_id := imageId
        mix_num_boxes := m }

/-- The three per-entry arrays produced by `ReferExpressionDataset.tokenize`. -/
structure TokenizedEntry where
  token : List ℤ
  input_mask : List ℤ
  segment_ids : List ℤ
  deriving DecidableEq, Repr

/-- `ReferExpressionDataset.tokenize` for one entry.  `sentenceTokens` is the
tokenizer output for the caption; words are mapped through
`self._vocab[w] if self._vocab.__contains__(w) else self._vocab["[UNK]"]`
after surrounding them with the `[CLS]` / `[SEP]` markers.  The final
`assert_eq(len(tokens), self._max_seq_length)` aborts (error case) on a
length mismatch. -/
def tokenizeEntry (maxSeqLength : ℕ) (paddingIndex : ℤ)
    (vocab : τ → Option ℤ) (unkId : ℤ) (clsTok sepTok : τ)
    (sentenceTokens : List τ) : Except String TokenizedEntry :=
  let tokens0 := (([clsTok] ++ sentenceTokens) ++ [sepTok]).map
    fun w => (vocab w).getD unkId
  let tokens1 := tokens0.take maxSeqLength
  let segment_ids1 := List.replicate tokens1.length (0 : ℤ)
  let input_mask1 := List.replicate tokens1.length (1 : ℤ)
  let packed :=
    if tokens1.length < maxSeqLength then
      let padding := List.replicate (maxSeqLength - tokens1.length) paddingIndex
      (tokens1 ++ padding, input_mask1 ++ padding, segment_ids1 ++ padding)
    else (tokens1, input_mask1, segment_ids1)
  match assert_eq packed.1.length maxSeqLength with
  | Except.ok _ => Except.ok ⟨packed.1, packed.2.1, packed.2.2⟩
  | Except.error e => Except.error e

/-! ### Arithmetic facts about the overlap computation -/

theorem clip0_nonneg (q : ℚ) : 0 ≤ clip0 q := by
  unfold clip0; split <;> linarith

theorem clip0_eq_zero {q : ℚ} (h : q ≤ 0) : clip0 q = 0 := by
  unfold clip0; split
  · rfl
  · linarith

theorem clip0_le {q c : ℚ} (hc : 0 ≤ c) (h : q ≤ c) : clip0 q ≤ c := by
  unfold clip0; split <;> linarith

theorem inter_nonneg (a b : Box) : 0 ≤ inter a b :=
  mul_nonneg (clip0_nonneg _) (clip0_nonneg _)

theorem one_le_area {b : Box} (hb : b.wff) : 1 ≤ b.area := by
  obtain ⟨h1, h2⟩ := hb
  unfold Box.area
  nlinarith

theorem inter_le_area_left {a : Box} (ha : a.wff) (b : Box) :
    inter a b ≤ a.area := by
  obtain ⟨h1, h2⟩ := ha
  have hw : clip0 (interW a b) ≤ a.x2 - a.x1 + 1 := by
    refine clip0_le (by linarith) ?_
    have h3 := min_le_left a.x2 b.x2
    have h4 := le_max_left a.x1 b.x1
    unfold interW; linarith
  have hh : clip0 (interH a b) ≤ a.y2 - a.y1 + 1 := by
    refine clip0_le (by linarith) ?_
    have h3 := min_le_left a.y2 b.y2
    have h4 := le_max_left a.y1 b.y1
    unfold interH; linarith
  calc inter a b ≤ (a.x2 - a.x1 + 1) * (a.y2 - a.y1 + 1) :=
        mul_le_mul hw hh (clip0_nonneg _) (by linarith)
    _ = a.area := rfl

theorem inter_le_area_right (a : Box) {b : Box} (hb : b.wff) :
    inter a b ≤ b.area := by
  obtain ⟨h1, h2⟩ := hb
  have hw : clip0 (interW a b) ≤ b.x2 - b.x1 + 1 := by
    refine clip0_le (by linarith) ?_
    have h3 := min_le_right a.x2 b.x2
    have h4 := le_max_right a.x1 b.x1
    unfold interW; linarith
  have hh : clip0 (interH a b) ≤ b.y2 - b.y1 + 1 := by
    refine clip0_le (by linarith) ?_
    have h3 := min_le_right a.y2 b.y2
    have h4 := le_max_right a.y1 b.y1
    unfold interH; linarith
  calc inter a b ≤ (b.x2 - b.x1 + 1) * (b.y2 - b.y1 + 1) :=
        mul_le_mul hw hh (clip0_nonneg _) (by linarith)
    _ = b.area := rfl

theorem one_le_unionArea {a b : Box} (ha : a.wff) (hb : b.wff) :
    1 ≤ unionArea a b := by
  have h1 := inter_le_area_right a hb
  have h2 := one_le_area ha
  unfold unionArea; linarith

theorem iouPair_nonneg {a b : Box} (ha : a.wff) (hb : b.wff) :
    0 ≤ iouPair a b :=
  div_nonneg (inter_nonneg a b)
    (le_trans zero_le_one (one_le_unionArea ha hb))

theorem iouPair_le_one {a b : Box} (ha : a.wff) (hb : b.wff) :
    iouPair a b ≤ 1 := by
  have hu : 0 < unionArea a b :=
    lt_of_lt_of_le one_pos (one_le_unionArea ha hb)
  rw [iouPair, div_le_one hu]
  have h1 := inter_le_area_left ha b
  have h2 := inter_le_area_right a hb
  have h3 := inter_nonneg a b
  unfold unionArea; linarith

/-! ### Facts about the Python slicing model -/

theorem pySliceLen_le (m : ℤ) (len : ℕ) : pySliceLen m len ≤ len := by
  unfold pySliceLen; split <;> omega

theorem pySliceLen_natCast (c len : ℕ) : pySliceLen (c : ℤ) len = min c len := by
  unfold pySliceLen
  rw [if_pos (Int.natCast_nonneg c), Int.toNat_natCast]

theorem pySetSlice_some {dst val out : List α} {m : ℤ}
    (h : pySetSlice dst m val = some out) :
    ∃ pre, out = pre ++ dst.drop (pySliceLen m dst.length) ∧
      pre.length = pySliceLen m dst.length ∧ ∀ x ∈ pre, x ∈ val := by
  by_cases hl : val.length = pySliceLen m dst.length
  · rw [pySetSlice, if_pos hl] at h
    simp only [Option.some.injEq] at h
    exact ⟨val, h.symm, hl, fun x hx => hx⟩
  · rw [pySetSlice, if_neg hl] at h
    by_cases hv : val.length = 1
    · rw [dif_pos hv] at h
      simp only [Option.some.injEq] at h
      refine ⟨List.replicate (pySliceLen m dst.length)
          (val.head (List.length_pos.mp (by omega))), h.symm,
        List.length_replicate _ _, fun x hx => ?_⟩
      rw [List.eq_of_mem_replicate hx]
      exact List.head_mem _
    · rw [dif_neg hv] at h
      simp at h

theorem pySetSlice_of_length_eq {dst val : List α} {m : ℤ}
    (h : val.length = pySliceLen m dst.length) :
    pySetSlice dst m val = some (val ++ dst.drop (pySliceLen m dst.length)) := by
  rw [pySetSlice, if_pos h]

theorem pySetSlice_length {dst val out : List α} {m : ℤ}
    (h : pySetSlice dst m val = some out) : out.length = dst.length := by
  obtain ⟨pre, rfl, hlen, -⟩ := pySetSlice_some h
  rw [List.length_append, hlen, List.length_drop]
  have := pySliceLen_le m dst.length
  omega

/-! ### List access helpers -/

theorem getD_append_lt {l1 l2 : List α} {i : ℕ} (h : i < l1.length) (d : α) :
    (l1 ++ l2).getD i d = l1.getD i d := by
  simp [List.getD_eq_getElem?_getD, List.getElem?_append_left h]

theorem getD_append_ge {l1 l2 : List α} {i : ℕ} (h : l1.length ≤ i) (d : α) :
    (l1 ++ l2).getD i d = l2.getD (i - l1.length) d := by
  simp [List.getD_eq_getElem?_getD, List.getElem?_append_right h]

theorem getD_replicate_lt {a d : α} {n i : ℕ} (h : i < n) :
    (List.replicate n a).getD i d = a := by
  simp [List.getD_eq_getElem?_getD, List.getElem?_replicate, h]

theorem getD_replicate_self (a : α) (n i : ℕ) :
    (List.replicate n a).getD i a = a := by
  rcases Nat.lt_or_ge i n with h | h
  · exact getD_replicate_lt h
  · simp [List.getD_eq_getElem?_getD,
      List.getElem?_eq_none (by simpa using h : (List.replicate n a).length ≤ i)]

theorem getD_of_length_le {l : List α} {i : ℕ} (h : l.length ≤ i) (d : α) :
    l.getD i d = d := by
  simp [List.getD_eq_getElem?_getD, List.getElem?_eq_none h]

theorem getD_take_lt {l : List α} {n i : ℕ} (h : i < n) (d : α) :
    (l.take n).getD i d = l.getD i d := by
  simp [List.getD_eq_getElem?_getD, List.getElem?_take_of_lt h]

theorem countP_mask (c k : ℕ) :
    (List.replicate c (1 : ℚ) ++ List.replicate k (0 : ℚ)).countP
      (fun q => decide (q = 1)) = c := by
  rw [List.countP_append, List.countP_replicate, List.countP_replicate]
  norm_num

/-! ### Facts about the merge step -/

theorem mem_mergeRows {x : α} {train : Bool} {det gtRows : List α}
    {nb gnb : ℕ} (h : x ∈ mergeRows train det nb gtRows gnb) :
    x ∈ det ∨ x ∈ gtRows := by
  unfold mergeRows at h
  cases train with
  | false => exact Or.inl (List.take_subset _ _ h)
  | true =>
    rcases List.mem_append.mp h with h | h
    · exact Or.inl (List.take_subset _ _ h)
    · exact Or.inr (List.take_subset _ _ (List.drop_subset _ _ h))

theorem mergeRows_length {det gtRows : List α} {nb gnb : ℕ}
    (hd : nb ≤ det.length) (hg : gnb ≤ gtRows.length) (train : Bool) :
    (mergeRows train det nb gtRows gnb).length =
      if train then nb + (gnb - 1) else nb := by
  unfold mergeRows
  cases train <;> simp <;> omega

theorem mixNumBoxes_le_cap (train : Bool) (nb gnb cap : ℕ) :
    mixNumBoxes train nb gnb cap ≤ (cap : ℤ) := by
  unfold mixNumBoxes
  split <;> exact min_le_right _ _

theorem count_le_mergeRows {det gtRows : List α} {nb gnb cap c : ℕ}
    {train : Bool} (hd : nb ≤ det.length) (hg : gnb ≤ gtRows.length)
    (hc : mixNumBoxes train nb gnb cap = (c : ℤ)) :
    c ≤ (mergeRows train det nb gtRows gnb).length := by
  rw [mergeRows_length hd hg]
  cases train with
  | true =>
    have h1 : (c : ℤ) ≤ (nb : ℤ) + (gnb : ℤ) - 1 := by
      rw [← hc]
      simp only [mixNumBoxes, if_true]
      exact min_le_left _ _
    simp only [if_true]
    omega
  | false =>
    have h1 : (c : ℤ) ≤ (nb : ℤ) := by
      rw [← hc]
      simp only [mixNumBoxes, Bool.false_eq_true, if_false]
      exact min_le_left _ _
    simp only [Bool.false_eq_true, if_false]
    omega

theorem pyTake_length (m : ℤ) (l : List α) :
    (pyTake m l).length = pySliceLen m l.length := by
  rw [pyTake, List.length_take]
  exact min_eq_left (pySliceLen_le m l.length)

theorem mixTarget_eq_map (train : Bool) (mOri : List Box) (r : Box) :
    mixTarget train mOri r =
      if train then mOri.map fun b => if iouPair b r < 1/2 then 0 else iouPair b r
      else mOri.map fun b => iouPair b r := by
  have hf : (iou mOri [r]).flatten = mOri.map fun b => iouPair b r := by
    induction mOri with
    | nil => rfl
    | cons a l ih => simpa [iou] using congrArg (List.cons (iouPair a r)) ih
  cases train <;> simp [mixTarget, hf]

/-- Destructuring of a successful per-index fetch into its three slice
assignments and the packed tuple. -/
theorem getitem_some {train : Bool} {cap msl : ℕ} {zF : F} {zS : S}
    {st gt : Store F S} {rx ry rw rh : ℚ}
    {caption input_mask segment_ids : List ℤ} {imageId : ℕ} {res : Item F S}
    (h : getitem train cap msl zF zS st gt rx ry rw rh caption input_mask
      segment_ids imageId = some res) :
    ∃ spatials feats target,
      pySetSlice (List.replicate cap zS)
          (mixNumBoxes train st.num_boxes gt.num_boxes cap)
          (pyTake (mixNumBoxes train st.num_boxes gt.num_boxes cap)
            (mixBoxes train st gt)) = some spatials
      ∧ pySetSlice (List.replicate cap zF)
          (mixNumBoxes train st.num_boxes gt.num_boxes cap)
          (pyTake (mixNumBoxes train st.num_boxes gt.num_boxes cap)
            (mixFeatures train st gt)) = some feats
      ∧ pySetSlice (List.replicate cap (0 : ℚ))
          (mixNumBoxes train st.num_boxes gt.num_boxes cap)
          (mixTarget train (mixBoxesOri train st gt)
            (refToCorners rx ry rw rh)) = some target
      ∧ res = ⟨feats, spatials,
          List.replicate (mixNumBoxes train st.num_boxes gt.num_boxes cap).toNat
              (1 : ℚ) ++
            List.replicate
              (cap - (mixNumBoxes train st.num_boxes gt.num_boxes cap).toNat)
              (0 : ℚ),
          caption, target, input_mask, segment_ids,
          List.replicate cap (List.replicate msl (0 : ℚ)), imageId,
          mixNumBoxes train st.num_boxes gt.num_boxes cap⟩ := by
  rw [getitem] at h
  simp only [Option.bind_eq_some, Option.map_eq_some'] at h
  obtain ⟨spatials, h1, feats, h2, target, h3, h4⟩ := h
  exact ⟨spatials, feats, target, h1, h2, h3, h4.symm⟩

/-- Every entry of a successfully packed target vector is either an entry of
`mix_target` or a padding zero. -/
theorem target_mem {cap : ℕ} {m : ℤ} {tgt target : List ℚ}
    (h : pySetSlice (List.replicate cap (0 : ℚ)) m tgt = some target) :
    ∀ q ∈ target, q ∈ tgt ∨ q = 0 := by
  obtain ⟨pre, rfl, hplen, hpre⟩ := pySetSlice_some h
  intro q hq
  rcases List.mem_append.mp hq with hq | hq
  · exact Or.inl (hpre q hq)
  · right
    rw [List.drop_replicate] at hq
    exact List.eq_of_mem_replicate hq

/-! ### Concrete data used to evaluate the definitions -/

/-- A detector box coinciding with the concrete reference box below. -/
def boxB : Box := ⟨0, 0, 10, 10⟩

/-- A store reporting zero valid regions. -/
def emptyStoreQ : Store ℚ ℚ := ⟨[], 0, [], []⟩

/-- A detector store with 70 valid regions (feature and spatial rows are
single rationals since the code only copies them). -/
def wDet70 : Store ℚ ℚ :=
  ⟨List.replicate 70 (0 : ℚ), 70, List.replicate 70 (0 : ℚ),
    List.replicate 70 boxB⟩

/-- A detector store with 3 valid regions. -/
def wDet3 : Store ℚ ℚ := ⟨[10, 11, 12], 3, [1, 2, 3], List.replicate 3 boxB⟩

/-- A ground-truth store with 5 valid regions. -/
def wGt5 : Store ℚ ℚ :=
  ⟨[20, 21, 22, 23, 24], 5, [4, 5, 6, 7, 8], List.replicate 5 boxB⟩

/-- A one-region detector store whose box has IoU 1/4 with the reference box
`(0, 0, 9, 9)` (as `(x, y, w, h)`). -/
def stC1 : Store ℚ ℚ := ⟨[(3 : ℚ)], 1, [(7 : ℚ)], [⟨0, 0, 4, 4⟩]⟩

/-- The example the evaluation-mode fetch returns on `stC1` with capacity 2. -/
def itemC1 : Item ℚ ℚ :=
  ⟨[3, 0], [7, 0], [1, 0], [], [1/4, 0], [], [], [[], []], 0, 1⟩

/-- The example the training-mode fetch returns on `wDet3` / `wGt5`
(the spec's Scenario B: counts 3 and 5, capacity 60). -/
def itemB : Item ℚ ℚ :=
  ⟨[10, 11, 12, 21, 22, 23, 24] ++ List.replicate 53 (0 : ℚ),
    [1, 2, 3, 5, 6, 7, 8] ++ List.replicate 53 (0 : ℚ),
    List.replicate 7 (1 : ℚ) ++ List.replicate 53 (0 : ℚ),
    [],
    List.replicate 7 (1 : ℚ) ++ List.replicate 53 (0 : ℚ),
    [], [], List.replicate 60 [], 0, 7⟩

/-- A zero-width box. -/
def degBox : Box := ⟨5, 0, 5, 10⟩

/-- A full box containing `degBox`. -/
def bigBox : Box := ⟨0, 0, 10, 10⟩

/-- A zero-width, zero-height box (degenerate in both axes). -/
def coinBox : Box := ⟨5, 5, 5, 5⟩

/-- Unit box at the origin. -/
def boxA : Box := ⟨0, 0, 1, 1⟩

/-- A box disjoint from `boxA` with a horizontal gap of 1/2. -/
def boxGap : Box := ⟨3/2, 0, 5/2, 1⟩

/-- A box disjoint from `boxA` with a horizontal gap of exactly 1. -/
def boxFar : Box := ⟨2, 0, 3, 1⟩

/-- Concrete evaluation of the training-mode fetch on `wDet3` / `wGt5`
(Scenario B input). -/
theorem itemB_eval :
    getitem true 60 0 (0 : ℚ) (0 : ℚ) wDet3 wGt5 0 0 10 10 [] [] [] 0 =
      some itemB := by
  simp [getitem, mixNumBoxes, mixBoxes, mixFeatures, mixBoxesOri, mergeRows,
    mixTarget, iou, pyTake, pySetSlice, pySliceLen, wDet3, wGt5, itemB,
    refToCorners, iouPair, inter, interW, interH, clip0, unionArea, Box.area,
    boxB, List.take_replicate, List.map_replicate, List.replicate_succ]
  norm_num

/-! ### Claim theorems -/

/-- C1, counterexample: in evaluation mode the `< 0.5` zeroing of
`mix_target` is not applied (it happens only in the training branch), so the
per-index fetch can return a label value of 1/4 — nonzero and strictly below
0.5 — at a valid (mask = 1) position, contradicting the claim. -/
theorem C1_cx_eval_below_half :
    getitem false 2 0 (0 : ℚ) (0 : ℚ) stC1 emptyStoreQ 0 0 9 9 [] [] [] 0 =
        some itemC1
      ∧ itemC1.image_mask.getD 0 0 = 1
      ∧ itemC1.target.getD 0 0 = 1/4
      ∧ ¬ ((1/4 : ℚ) = 0 ∨ (1/2 ≤ (1/4 : ℚ) ∧ (1/4 : ℚ) ≤ 1)) := by
  refine ⟨?_, by norm_num [itemC1], by norm_num [itemC1], by norm_num⟩
  simp [getitem, mixNumBoxes, mixBoxes, mixFeatures, mixBoxesOri, mergeRows,
    mixTarget, iou, pyTake, pySetSlice, pySliceLen, stC1, emptyStoreQ, itemC1,
    refToCorners, iouPair, inter, interW, interH, clip0, unionArea, Box.area]
  norm_num

/-- C1 (amended): in training mode every label value of the returned target
vector — valid and padded positions alike — is either 0 or a raw IoU value
in [1/2, 1]: scores strictly below 1/2 are zeroed and scores ≥ 1/2 kept
unrounded.  In evaluation mode the thresholding is not applied and label
values are raw IoU values in [0, 1].  Boxes are assumed corner-ordered and
the reference width/height nonnegative, the well-formedness the source
expects of its inputs. -/
theorem C1_amended_label_range (train : Bool) (cap msl : ℕ) (zF : F) (zS : S)
    (st gt : Store F S) (rx ry rw rh : ℚ)
    (caption input_mask segment_ids : List ℤ) (imageId : ℕ) (res : Item F S)
    (hst : ∀ b ∈ st.boxes_ori, b.wff) (hgt : ∀ b ∈ gt.boxes_ori, b.wff)
    (hrw : 0 ≤ rw) (hrh : 0 ≤ rh)
    (h : getitem train cap msl zF zS st gt rx ry rw rh caption input_mask
      segment_ids imageId = some res) :
    (train = true → ∀ q ∈ res.target, q = 0 ∨ (1/2 ≤ q ∧ q ≤ 1))
      ∧ (train = false → ∀ q ∈ res.target, 0 ≤ q ∧ q ≤ 1) := by
  obtain ⟨spatials, feats, target, h1, h2, h3, rfl⟩ := getitem_some h
  have href : (refToCorners rx ry rw rh).wff := by
    constructor <;> simp [refToCorners] <;> linarith
  have hwf : ∀ b ∈ mixBoxesOri train st gt, b.wff := by
    intro b hb
    rcases mem_mergeRows hb with hb | hb
    · exact hst b hb
    · exact hgt b hb
  have hmem := target_mem h3
  rw [mixTarget_eq_map] at hmem
  cases train with
  | true =>
    refine ⟨fun _ q hq => ?_, fun hft => absurd hft (by decide)⟩
    rcases hmem q hq with hq | rfl
    · rw [if_pos rfl] at hq
      obtain ⟨b, hb, rfl⟩ := List.mem_map.mp hq
      by_cases hlt : iouPair b (refToCorners rx ry rw rh) < 1/2
      · rw [if_pos hlt]; exact Or.inl rfl
      · rw [if_neg hlt]
        exact Or.inr ⟨le_of_not_lt hlt, iouPair_le_one (hwf b hb) href⟩
    · exact Or.inl rfl
  | false =>
    refine ⟨fun htf => absurd htf (by decide), fun _ q hq => ?_⟩
    rcases hmem q hq with hq | rfl
    · rw [if_neg (by decide)] at hq
      obtain ⟨b, hb, rfl⟩ := List.mem_map.mp hq
      exact ⟨iouPair_nonneg (hwf b hb) href, iouPair_le_one (hwf b hb) href⟩
    · exact ⟨le_refl 0, zero_le_one⟩

theorem C1_amended_label_range_witness :
    (∀ b ∈ wDet3.boxes_ori, b.wff) ∧ (∀ b ∈ wGt5.boxes_ori, b.wff)
      ∧ (0 ≤ (10 : ℚ))
      ∧ getitem true 60 0 (0 : ℚ) (0 : ℚ) wDet3 wGt5 0 0 10 10 [] [] [] 0 =
        some itemB
      ∧ ((true = true → ∀ q ∈ itemB.target, q = 0 ∨ (1/2 ≤ q ∧ q ≤ 1))
          ∧ (true = false → ∀ q ∈ itemB.target, 0 ≤ q ∧ q ≤ 1)) := by
  have hst : ∀ b ∈ wDet3.boxes_ori, b.wff := by
    intro b hb
    rw [show wDet3.boxes_ori = List.replicate 3 boxB from rfl] at hb
    rw [List.eq_of_mem_replicate hb]
    norm_num [Box.wff, boxB]
  have hgt : ∀ b ∈ wGt5.boxes_ori, b.wff := by
    intro b hb
    rw [show wGt5.boxes_ori = List.replicate 5 boxB from rfl] at hb
    rw [List.eq_of_mem_replicate hb]
    norm_num [Box.wff, boxB]
  have h : getitem true 60 0 (0 : ℚ) (0 : ℚ) wDet3 wGt5 0 0 10 10 [] [] [] 0 =
      some itemB := itemB_eval
  exact ⟨hst, hgt, by norm_num, h,
    C1_amended_label_range true 60 0 (0 : ℚ) (0 : ℚ) wDet3 wGt5 0 0 10 10
      [] [] [] 0 itemB hst hgt (by norm_num) (by norm_num) h⟩

/-- C2: the code raises instead of completing.  With detector valid count 70
and `max_region_num` 60 the merged count is 60, but the assignment
`target[:mix_num_boxes] = mix_target` keeps all 70 rows on the right-hand
side, so the shapes (70, 1) and (60, 1) do not broadcast and the per-index
fetch aborts with a shape error; the neighbouring feature/box assignments do
truncate their right-hand sides, so the claim describes the evident intent. -/
theorem C2_eval_overflow_raises :
    getitem false 60 0 (0 : ℚ) (0 : ℚ) wDet70 emptyStoreQ 0 0 10 10 [] [] [] 0 =
        none
      ∧ mixNumBoxes false 70 0 60 = 60
      ∧ (mixTarget false (mixBoxesOri false wDet70 emptyStoreQ)
          (refToCorners 0 0 10 10)).length = 70 := by
  refine ⟨?_, by simp [mixNumBoxes, min_def], ?_⟩
  · simp [getitem, mixNumBoxes, mixBoxes, mixFeatures, mixBoxesOri, mergeRows,
      mixTarget, iou, pyTake, pySetSlice, pySliceLen, wDet70, emptyStoreQ,
      refToCorners, List.take_replicate, List.map_replicate]
  · simp [mixTarget_eq_map, mixBoxesOri, mergeRows, wDet70, emptyStoreQ,
      List.take_replicate, List.map_replicate]

/-- C4, counterexample: under the inclusive `+1` area convention a
zero-width box still spans one pixel column, so paired with an overlapping
box its intersection is 11, not 0; moreover two coincident boxes degenerate
in both axes have union 1, not 0. -/
theorem C4_cx_degenerate_inter_pos :
    degBox.x2 = degBox.x1
      ∧ inter degBox bigBox = 11
      ∧ inter degBox bigBox ≠ 0
      ∧ coinBox.x1 = coinBox.x2 ∧ coinBox.y1 = coinBox.y2
      ∧ unionArea coinBox coinBox = 1 := by
  norm_num [inter, interW, interH, clip0, unionArea, Box.area, degBox, bigBox,
    coinBox]

/-- C4 (amended): under the inclusive `+1` convention a degenerate box has
positive area and may have positive intersection, but for any two boxes with
ordered corners — coincident degenerate ones included — the union term is at
least 1, so the division is well-defined; a zero union would require a
corner-inverted (ill-formed) box. -/
theorem C4_amended_union_pos (a b : Box) (ha : a.wff) (hb : b.wff) :
    1 ≤ unionArea a b ∧ unionArea a b ≠ 0 := by
  have h := one_le_unionArea ha hb
  exact ⟨h, by linarith⟩

theorem C4_amended_union_pos_witness :
    coinBox.wff ∧ 1 ≤ unionArea coinBox coinBox ∧ unionArea coinBox coinBox ≠ 0 :=
  ⟨by norm_num [Box.wff, coinBox],
    C4_amended_union_pos coinBox coinBox (by norm_num [Box.wff, coinBox])
      (by norm_num [Box.wff, coinBox])⟩

/-- C7, counterexample: the boxes `(0, 0, 1, 1)` and `(3/2, 0, 5/2, 1)` have
no spatial overlap (the first ends at x = 1 before the second starts at
x = 3/2), yet under the `+1` convention the overlap function returns
IoU 1/7, not 0. -/
theorem C7_cx_disjoint_pos_iou :
    boxA.x2 < boxGap.x1
      ∧ iouPair boxA boxGap = 1/7
      ∧ iouPair boxA boxGap ≠ 0 := by
  norm_num [iouPair, inter, interW, interH, clip0, unionArea, Box.area, boxA,
    boxGap]

/-- C7 (amended): the clipped intersection is never negative, and two
corner-ordered boxes separated by at least one pixel unit in some axis get
IoU exactly 0; boxes disjoint by a gap smaller than one unit may still
receive a positive intersection under the `+1` convention. -/
theorem C7_amended_separated_iou_zero (a b : Box) (ha : a.wff) (hb : b.wff)
    (hsep : a.x2 + 1 ≤ b.x1 ∨ b.x2 + 1 ≤ a.x1 ∨ a.y2 + 1 ≤ b.y1 ∨
      b.y2 + 1 ≤ a.y1) :
    iouPair a b = 0 ∧ 0 ≤ inter a b ∧ unionArea a b ≠ 0 := by
  have hz : inter a b = 0 := by
    rcases hsep with h | h | h | h
    · have hw : interW a b ≤ 0 := by
        have h3 := min_le_left a.x2 b.x2
        have h4 := le_max_right a.x1 b.x1
        unfold interW; linarith
      rw [inter, clip0_eq_zero hw, zero_mul]
    · have hw : interW a b ≤ 0 := by
        have h3 := min_le_right a.x2 b.x2
        have h4 := le_max_left a.x1 b.x1
        unfold interW; linarith
      rw [inter, clip0_eq_zero hw, zero_mul]
    · have hh : interH a b ≤ 0 := by
        have h3 := min_le_left a.y2 b.y2
        have h4 := le_max_right a.y1 b.y1
        unfold interH; linarith
      rw [inter, clip0_eq_zero hh, mul_zero]
    · have hh : interH a b ≤ 0 := by
        have h3 := min_le_right a.y2 b.y2
        have h4 := le_max_left a.y1 b.y1
        unfold interH; linarith
      rw [inter, clip0_eq_zero hh, mul_zero]
  refine ⟨?_, inter_nonneg a b, ?_⟩
  · rw [iouPair, hz, zero_div]
  · have := one_le_unionArea ha hb; linarith

theorem C7_amended_separated_iou_zero_witness :
    boxA.wff ∧ boxFar.wff ∧ boxA.x2 + 1 ≤ boxFar.x1
      ∧ iouPair boxA boxFar = 0 ∧ 0 ≤ inter boxA boxFar
      ∧ unionArea boxA boxFar ≠ 0 := by
  refine ⟨by norm_num [Box.wff, boxA], by norm_num [Box.wff, boxFar],
    by norm_num [boxA, boxFar], ?_⟩
  exact C7_amended_separated_iou_zero boxA boxFar
    (by norm_num [Box.wff, boxA]) (by norm_num [Box.wff, boxFar])
    (Or.inl (by norm_num [boxA, boxFar]))

/-- C10: the code raises instead of returning the described example.  In
training mode with ground-truth valid count 0, the slice from index 1 is
empty and the computed merged count is `min(detector_count - 1,
max_region_num)` = 2, one less than the 3 detector regions present; but the
untruncated assignment `target[:mix_num_boxes] = mix_target` then pairs 3
rows with a 2-row slice and the fetch aborts with a shape error, so the
masked-out region and zeroed label the claim describes (the evident intent,
matching the truncated neighbouring assignments) are never produced. -/
theorem C10_gt_zero_raises :
    getitem true 60 0 (0 : ℚ) (0 : ℚ) wDet3 emptyStoreQ 0 0 10 10 [] [] [] 0 =
        none
      ∧ (emptyStoreQ.boxes_ori.take emptyStoreQ.num_boxes).drop 1 = []
      ∧ mixNumBoxes true 3 0 60 = 2
      ∧ (mixBoxesOri true wDet3 emptyStoreQ).length = 3 := by
  refine ⟨?_, by simp [emptyStoreQ], by simp [mixNumBoxes, min_def],
    by simp [mixBoxesOri, mergeRows, wDet3, emptyStoreQ]⟩
  simp [getitem, mixNumBoxes, mixBoxes, mixFeatures, mixBoxesOri, mergeRows,
    mixTarget, iou, pyTake, pySetSlice, pySliceLen, wDet3, emptyStoreQ,
    refToCorners, List.take_replicate, List.map_replicate]

/-- C3: in training mode the merge drops the ground-truth-derived region at
index 0 (the slice starts at index 1), concatenates the truncated detector
rows with the remaining ground-truth-derived rows in that order, and a
successful fetch reports count
`min(detector_count + gt_count - 1, max_region_num)` with exactly that many
ones in the region mask. -/
theorem C3_train_merge (cap msl : ℕ) (zF : F) (zS : S) (st gt : Store F S)
    (rx ry rw rh : ℚ) (caption input_mask segment_ids : List ℤ)
    (imageId : ℕ) (res : Item F S)
    (h : getitem true cap msl zF zS st gt rx ry rw rh caption input_mask
      segment_ids imageId = some res) :
    mixBoxesOri true st gt =
        st.boxes_ori.take st.num_boxes ++
          (gt.boxes_ori.take gt.num_boxes).drop 1
      ∧ mixFeatures true st gt =
        st.features.take st.num_boxes ++
          (gt.features.take gt.num_boxes).drop 1
      ∧ res.mix_num_boxes =
        min ((st.num_boxes : ℤ) + (gt.num_boxes : ℤ) - 1) (cap : ℤ)
      ∧ res.image_mask.countP (fun q => decide (q = 1)) =
        res.mix_num_boxes.toNat := by
  obtain ⟨spatials, feats, target, h1, h2, h3, rfl⟩ := getitem_some h
  refine ⟨by simp [mixBoxesOri, mergeRows], by simp [mixFeatures, mergeRows],
    by simp [mixNumBoxes], ?_⟩
  exact countP_mask _ _

theorem C3_train_merge_witness :
    getitem true 60 0 (0 : ℚ) (0 : ℚ) wDet3 wGt5 0 0 10 10 [] [] [] 0 =
        some itemB
      ∧ (mixBoxesOri true wDet3 wGt5 =
          wDet3.boxes_ori.take wDet3.num_boxes ++
            (wGt5.boxes_ori.take wGt5.num_boxes).drop 1
        ∧ mixFeatures true wDet3 wGt5 =
          wDet3.features.take wDet3.num_boxes ++
            (wGt5.features.take wGt5.num_boxes).drop 1
        ∧ itemB.mix_num_boxes =
          min ((wDet3.num_boxes : ℤ) + (wGt5.num_boxes : ℤ) - 1) ((60 : ℕ) : ℤ)
        ∧ itemB.image_mask.countP (fun q => decide (q = 1)) =
          itemB.mix_num_boxes.toNat) :=
  ⟨itemB_eval,
    C3_train_merge 60 0 (0 : ℚ) (0 : ℚ) wDet3 wGt5 0 0 10 10 [] [] [] 0 itemB
      itemB_eval⟩

/-- C5: for every example a per-index fetch returns with merged candidate
count `c`, `c` is at most `max_region_num`, the region mask has length
`max_region_num` with exactly `c` ones, all in the first `c` positions, and
the target vector is zero at every position where the mask is zero. -/
theorem C5_mask_target_invariant (train : Bool) (cap msl : ℕ) (zF : F)
    (zS : S) (st gt : Store F S) (rx ry rw rh : ℚ)
    (caption input_mask segment_ids : List ℤ) (imageId : ℕ)
    (res : Item F S) (c : ℕ)
    (h : getitem train cap msl zF zS st gt rx ry rw rh caption input_mask
      segment_ids imageId = some res)
    (hc : res.mix_num_boxes = (c : ℤ)) :
    c ≤ cap
      ∧ res.image_mask.length = cap
      ∧ res.image_mask.countP (fun q => decide (q = 1)) = c
      ∧ (∀ i, i < c → res.image_mask.getD i 0 = 1)
      ∧ (∀ i, res.image_mask.getD i 1 = 0 → res.target.getD i 1 = 0) := by
  obtain ⟨spatials, feats, target, h1, h2, h3, rfl⟩ := getitem_some h
  have hm : mixNumBoxes train st.num_boxes gt.num_boxes cap = (c : ℤ) := hc
  have hcap : c ≤ cap := by
    have hmc := mixNumBoxes_le_cap train st.num_boxes gt.num_boxes cap
    rw [hm] at hmc
    exact_mod_cast hmc
  have htN : (mixNumBoxes train st.num_boxes gt.num_boxes cap).toNat = c := by
    rw [hm]; exact Int.toNat_natCast c
  have hmaskL : (List.replicate
        (mixNumBoxes train st.num_boxes gt.num_boxes cap).toNat (1 : ℚ) ++
      List.replicate
        (cap - (mixNumBoxes train st.num_boxes gt.num_boxes cap).toNat)
        (0 : ℚ)).length = cap := by
    rw [htN, List.length_append, List.length_replicate, List.length_replicate]
    omega
  have hmask1 : ∀ i, i < c →
      (List.replicate
          (mixNumBoxes train st.num_boxes gt.num_boxes cap).toNat (1 : ℚ) ++
        List.replicate
          (cap - (mixNumBoxes train st.num_boxes gt.num_boxes cap).toNat)
          (0 : ℚ)).getD i 0 = 1 := by
    intro i hi
    rw [htN, getD_append_lt (by simpa using hi), getD_replicate_lt hi]
  refine ⟨hcap, hmaskL, by rw [htN]; exact countP_mask c (cap - c), hmask1, ?_⟩
  intro i hmask
  by_cases hic : i < c
  · exfalso
    have h1' : (List.replicate
          (mixNumBoxes train st.num_boxes gt.num_boxes cap).toNat (1 : ℚ) ++
        List.replicate
          (cap - (mixNumBoxes train st.num_boxes gt.num_boxes cap).toNat)
          (0 : ℚ)).getD i 1 = 1 := by
      rw [htN, getD_append_lt (by simpa using hic), getD_replicate_lt hic]
    rw [h1'] at hmask
    exact one_ne_zero hmask
  · by_cases hicap : i < cap
    · obtain ⟨pre, rfl, hplen, -⟩ := pySetSlice_some h3
      have hp : pySliceLen (mixNumBoxes train st.num_boxes gt.num_boxes cap)
          (List.replicate cap (0 : ℚ)).length = c := by
        rw [List.length_replicate, hm, pySliceLen_natCast]
        exact min_eq_left hcap
      rw [hp] at hplen
      show (pre ++ (List.replicate cap (0 : ℚ)).drop
        (pySliceLen (mixNumBoxes train st.num_boxes gt.num_boxes cap)
          (List.replicate cap (0 : ℚ)).length)).getD i 1 = 0
      rw [hp, getD_append_ge (by omega), hplen, List.drop_replicate]
      exact getD_replicate_lt (by omega)
    · exfalso
      have h1' := getD_of_length_le (l :=
        List.replicate
            (mixNumBoxes train st.num_boxes gt.num_boxes cap).toNat (1 : ℚ) ++
          List.replicate
            (cap - (mixNumBoxes train st.num_boxes gt.num_boxes cap).toNat)
            (0 : ℚ)) (i := i) (by rw [hmaskL]; omega) (1 : ℚ)
      rw [h1'] at hmask
      exact one_ne_zero hmask

theorem C5_mask_target_invariant_witness :
    getitem true 60 0 (0 : ℚ) (0 : ℚ) wDet3 wGt5 0 0 10 10 [] [] [] 0 =
        some itemB
      ∧ itemB.mix_num_boxes = ((7 : ℕ) : ℤ)
      ∧ (7 ≤ 60
        ∧ itemB.image_mask.length = 60
        ∧ itemB.image_mask.countP (fun q => decide (q = 1)) = 7
        ∧ (∀ i, i < 7 → itemB.image_mask.getD i 0 = 1)
        ∧ (∀ i, itemB.image_mask.getD i 1 = 0 → itemB.target.getD i 1 = 0)) :=
  ⟨itemB_eval, by norm_num [itemB],
    C5_mask_target_invariant true 60 0 (0 : ℚ) (0 : ℚ) wDet3 wGt5 0 0 10 10
      [] [] [] 0 itemB 7 itemB_eval (by norm_num [itemB])⟩

/-- Shape and content of one packed row array (`mix_boxes_pad` or
`mix_features_pad`) produced by a truncated slice assignment into a zero
array. -/
theorem pack_rows_spec {cap c : ℕ} {m : ℤ} {rows out : List α} {z : α}
    (hm : m = (c : ℤ)) (hcap : c ≤ cap) (hlen : c ≤ rows.length)
    (h : pySetSlice (List.replicate cap z) m (pyTake m rows) = some out) :
    out.length = cap
      ∧ (∀ i, i < c → out.getD i z = rows.getD i z)
      ∧ (∀ i, c ≤ i → out.getD i z = z) := by
  subst hm
  have hp : pySliceLen (c : ℤ) (List.replicate cap z).length = c := by
    rw [List.length_replicate, pySliceLen_natCast]
    exact min_eq_left hcap
  have hvl : (pyTake (c : ℤ) rows).length = c := by
    rw [pyTake_length, pySliceLen_natCast]
    exact min_eq_left hlen
  have hout : out = pyTake (c : ℤ) rows ++ (List.replicate cap z).drop c := by
    rw [pySetSlice_of_length_eq (by rw [hvl, hp]), hp] at h
    exact ((Option.some.injEq _ _).mp h).symm
  subst hout
  refine ⟨?_, ?_, ?_⟩
  · rw [List.length_append, hvl, List.length_drop, List.length_replicate]
    omega
  · intro i hi
    rw [getD_append_lt (by omega), pyTake, pySliceLen_natCast,
      min_eq_left hlen]
    exact getD_take_lt hi z
  · intro i hi
    rw [getD_append_ge (by omega), List.drop_replicate]
    exact getD_replicate_self z _ _

/-- C6: the packed features and spatials arrays returned by a successful
per-index fetch have `max_region_num` rows, reproduce the merged source
rows at every index strictly below the merged count, and are the zero row at
every index at or above it.  The stores are assumed to satisfy their
documented contract (valid count at most the materialized rows). -/
theorem C6_pack_rows (train : Bool) (cap msl : ℕ) (zF : F) (zS : S)
    (st gt : Store F S) (rx ry rw rh : ℚ)
    (caption input_mask segment_ids : List ℤ) (imageId : ℕ)
    (res : Item F S) (c : ℕ) (hst : st.wff) (hgt : gt.wff)
    (h : getitem train cap msl zF zS st gt rx ry rw rh caption input_mask
      segment_ids imageId = some res)
    (hc : res.mix_num_boxes = (c : ℤ)) :
    res.features.length = cap
      ∧ res.spatials.length = cap
      ∧ (∀ i, i < c →
          res.features.getD i zF = (mixFeatures train st gt).getD i zF)
      ∧ (∀ i, c ≤ i → res.features.getD i zF = zF)
      ∧ (∀ i, i < c →
          res.spatials.getD i zS = (mixBoxes train st gt).getD i zS)
      ∧ (∀ i, c ≤ i → res.spatials.getD i zS = zS) := by
  obtain ⟨spatials, feats, target, h1, h2, h3, rfl⟩ := getitem_some h
  have hm : mixNumBoxes train st.num_boxes gt.num_boxes cap = (c : ℤ) := hc
  have hcap : c ≤ cap := by
    have hmc := mixNumBoxes_le_cap train st.num_boxes gt.num_boxes cap
    rw [hm] at hmc
    exact_mod_cast hmc
  have hlf : c ≤ (mixFeatures train st gt).length :=
    count_le_mergeRows hst.1 hgt.1 hm
  have hlb : c ≤ (mixBoxes train st gt).length :=
    count_le_mergeRows hst.2.1 hgt.2.1 hm
  obtain ⟨hfl, hf1, hf2⟩ := pack_rows_spec hm hcap hlf h2
  obtain ⟨hsl, hs1, hs2⟩ := pack_rows_spec hm hcap hlb h1
  exact ⟨hfl, hsl, hf1, hf2, hs1, hs2⟩

theorem C6_pack_rows_witness :
    wDet3.wff ∧ wGt5.wff
      ∧ getitem true 60 0 (0 : ℚ) (0 : ℚ) wDet3 wGt5 0 0 10 10 [] [] [] 0 =
        some itemB
      ∧ itemB.mix_num_boxes = ((7 : ℕ) : ℤ)
      ∧ (itemB.features.length = 60
        ∧ itemB.spatials.length = 60
        ∧ (∀ i, i < 7 →
            itemB.features.getD i 0 = (mixFeatures true wDet3 wGt5).getD i 0)
        ∧ (∀ i, 7 ≤ i → itemB.features.getD i 0 = 0)
        ∧ (∀ i, i < 7 →
            itemB.spatials.getD i 0 = (mixBoxes true wDet3 wGt5).getD i 0)
        ∧ (∀ i, 7 ≤ i → itemB.spatials.getD i 0 = 0)) :=
  ⟨by simp [Store.wff, wDet3], by simp [Store.wff, wGt5], itemB_eval,
    by norm_num [itemB],
    C6_pack_rows true 60 0 (0 : ℚ) (0 : ℚ) wDet3 wGt5 0 0 10 10 [] [] [] 0
      itemB 7 (by simp [Store.wff, wDet3]) (by simp [Store.wff, wGt5])
      itemB_eval (by norm_num [itemB])⟩

theorem drop_replicate_append (k : ℕ) (a : α) (X : List α) :
    (List.replicate k a ++ X).drop k = X := by
  have h := List.drop_left (List.replicate k a) X
  rwa [List.length_replicate] at h

/-- `tokenize` always succeeds on one entry: the truncated id sequence is
padded (trivially when already full) and the final length assertion holds. -/
theorem tokenizeEntry_eq {τ : Type} (msl : ℕ) (padIdx : ℤ)
    (vocab : τ → Option ℤ) (unkId : ℤ) (clsTok sepTok : τ)
    (sentence : List τ) :
    tokenizeEntry msl padIdx vocab unkId clsTok sepTok sentence =
      Except.ok
        ⟨((([clsTok] ++ sentence) ++ [sepTok]).map
            fun w => (vocab w).getD unkId).take msl ++
          List.replicate (msl - (((([clsTok] ++ sentence) ++ [sepTok]).map
            fun w => (vocab w).getD unkId).take msl).length) padIdx,
        List.replicate (((([clsTok] ++ sentence) ++ [sepTok]).map
            fun w => (vocab w).getD unkId).take msl).length (1 : ℤ) ++
          List.replicate (msl - (((([clsTok] ++ sentence) ++ [sepTok]).map
            fun w => (vocab w).getD unkId).take msl).length) padIdx,
        List.replicate (((([clsTok] ++ sentence) ++ [sepTok]).map
            fun w => (vocab w).getD unkId).take msl).length (0 : ℤ) ++
          List.replicate (msl - (((([clsTok] ++ sentence) ++ [sepTok]).map
            fun w => (vocab w).getD unkId).take msl).length) padIdx⟩ := by
  rw [tokenizeEntry]
  generalize (([clsTok] ++ sentence) ++ [sepTok]).map
    (fun w => (vocab w).getD unkId) = T
  have hle : (T.take msl).length ≤ msl := by simp
  by_cases hlt : (T.take msl).length < msl
  · rw [if_pos hlt]
    have hl1 : ((T.take msl) ++
        List.replicate (msl - (T.take msl).length) padIdx).length = msl := by
      rw [List.length_append, List.length_replicate]; omega
    rw [show assert_eq ((T.take msl ++
        List.replicate (msl - (T.take msl).length) padIdx,
        List.replicate (T.take msl).length (1 : ℤ) ++
          List.replicate (msl - (T.take msl).length) padIdx,
        List.replicate (T.take msl).length (0 : ℤ) ++
          List.replicate (msl - (T.take msl).length) padIdx)).1.length msl =
      Except.ok () from by rw [assert_eq, if_pos hl1]]
  · rw [if_neg hlt]
    have heq : (T.take msl).length = msl := by omega
    have hz : msl - (T.take msl).length = 0 := by omega
    rw [show assert_eq ((T.take msl,
        List.replicate (T.take msl).length (1 : ℤ),
        List.replicate (T.take msl).length (0 : ℤ))).1.length msl =
      Except.ok () from by rw [assert_eq, if_pos heq]]
    rw [hz]
    simp

/-- C8: for every caption, regardless of length, tokenization succeeds and
produces token, mask and segment-id vectors of length exactly
`max_seq_length` (shorter captions padded, longer ones truncated); and
whenever a packed length differs from the expected one, `assert_eq` aborts
with an error rather than returning a recoverable value. -/
theorem C8_tokenize_fixed_length {τ : Type} (msl : ℕ) (padIdx : ℤ)
    (vocab : τ → Option ℤ) (unkId : ℤ) (clsTok sepTok : τ)
    (sentence : List τ) :
    (∃ out, tokenizeEntry msl padIdx vocab unkId clsTok sepTok sentence =
        Except.ok out
      ∧ out.token.length = msl ∧ out.input_mask.length = msl
      ∧ out.segment_ids.length = msl)
      ∧ (∀ a b : ℕ, a ≠ b → ∃ e, assert_eq a b = Except.error e) := by
  refine ⟨⟨_, tokenizeEntry_eq msl padIdx vocab unkId clsTok sepTok sentence,
    ?_, ?_, ?_⟩, ?_⟩
  · simp only [List.length_append, List.length_replicate, List.length_take]
    omega
  · simp only [List.length_append, List.length_replicate, List.length_take]
    omega
  · simp only [List.length_append, List.length_replicate, List.length_take]
    omega
  · intro a b hab
    exact ⟨"AssertionError", by rw [assert_eq, if_neg hab]⟩

theorem C8_tokenize_fixed_length_witness :
    (∃ out, tokenizeEntry 6 5 (fun _ : ℕ => none) 9 0 1 [7, 8] =
        Except.ok out
      ∧ out.token.length = 6 ∧ out.input_mask.length = 6
      ∧ out.segment_ids.length = 6)
      ∧ ((1 : ℕ) ≠ 2 ∧ ∃ e, assert_eq (1 : ℕ) 2 = Except.error e) :=
  ⟨(C8_tokenize_fixed_length 6 5 (fun _ : ℕ => none) 9 0 1 [7, 8]).1,
    by decide,
    (C8_tokenize_fixed_length 6 5 (fun _ : ℕ => none) 9 0 1 [7, 8]).2 1 2
      (by decide)⟩

/-- C9: when the marker-wrapped token sequence has length `t` strictly below
`max_seq_length`, the padded tail positions of both the sequence mask and
the segment-id vector hold the configured `padding_index` (the same padding
list is appended to all three arrays); hence the mask is zero at padded
positions only when `padding_index` is zero, and a nonzero `padding_index`
makes every padded mask position nonzero. -/
theorem C9_padding_tail {τ : Type} (msl : ℕ) (padIdx : ℤ)
    (vocab : τ → Option ℤ) (unkId : ℤ) (clsTok sepTok : τ)
    (sentence : List τ) (out : TokenizedEntry)
    (hlen : sentence.length + 2 < msl)
    (h : tokenizeEntry msl padIdx vocab unkId clsTok sepTok sentence =
      Except.ok out) :
    out.input_mask.drop (sentence.length + 2) =
        List.replicate (msl - (sentence.length + 2)) padIdx
      ∧ out.segment_ids.drop (sentence.length + 2) =
        List.replicate (msl - (sentence.length + 2)) padIdx
      ∧ (padIdx ≠ 0 →
          ∀ q ∈ out.input_mask.drop (sentence.length + 2), q ≠ 0) := by
  rw [tokenizeEntry_eq] at h
  injection h with h
  subst h
  have hn : (((([clsTok] ++ sentence) ++ [sepTok]).map
      fun w => (vocab w).getD unkId).take msl).length =
      sentence.length + 2 := by
    rw [List.length_take, List.length_map, List.length_append,
      List.length_append]
    simp only [List.length_singleton]
    omega
  simp only [hn]
  refine ⟨drop_replicate_append _ _ _, drop_replicate_append _ _ _,
    fun hpad => ?_⟩
  rw [drop_replicate_append]
  intro q hq
  rw [List.eq_of_mem_replicate hq]
  exact hpad

theorem C9_padding_tail_witness :
    (2 : ℕ) + 2 < 6
      ∧ tokenizeEntry 6 5 (fun _ : ℕ => none) 9 0 1 [7, 8] =
        Except.ok ⟨[9, 9, 9, 9, 5, 5], [1, 1, 1, 1, 5, 5],
          [0, 0, 0, 0, 5, 5]⟩
      ∧ (([1, 1, 1, 1, 5, 5] : List ℤ).drop 4 = List.replicate 2 (5 : ℤ)
        ∧ ([0, 0, 0, 0, 5, 5] : List ℤ).drop 4 = List.replicate 2 (5 : ℤ)
        ∧ ((5 : ℤ) ≠ 0 →
            ∀ q ∈ ([1, 1, 1, 1, 5, 5] : List ℤ).drop 4, q ≠ 0)) := by
  have h : tokenizeEntry 6 5 (fun _ : ℕ => none) 9 0 1 [7, 8] =
      Except.ok ⟨[9, 9, 9, 9, 5, 5], [1, 1, 1, 1, 5, 5],
        [0, 0, 0, 0, 5, 5]⟩ := by rfl
  exact ⟨by decide, h,
    C9_padding_tail 6 5 (fun _ : ℕ => none) 9 0 1 [7, 8] _ (by decide) h⟩

end RecDataset
